import Mathlib

/-!
Verification development for the checklist-driven code-review helper.

The repository has two front ends sharing one data contract:
* `scripts/aicode-review.js` — the batch heuristic auditor, run at a
  repository root; it loads `.aicodechecklist.json`, runs four local
  heuristic checks keyed by well-known item ids, fills every remaining
  item with a NeedsAttention placeholder, prints the verdicts and exits
  with a summary code.
* `out/extension.js` — the interactive reviewer; it loads the same
  checklist, sends one chat-completion request to a remote judge, strips
  an optional markdown code fence from the reply and parses it as JSON.

The definitions below are a shallow embedding of that code.  Filesystem
state, `package.json` contents, subprocess exit outcomes and the network
reply are modelled as explicit oracle values recording the outcomes the
JavaScript primitives would deliver; everything the scripts compute from
those outcomes is translated function by function.  JavaScript strings
handled by the fence stripper are modelled as `List Char` so that the
regex-replace steps become list operations; the auditor side uses `String`.
-/

namespace ACR

/-- Verdict status: the three values the system ever produces
(`Pass`, `Fail`, `NeedsAttention`). -/
inductive Status where
  | Pass
  | Fail
  | NeedsAttention
deriving DecidableEq, Repr

/-- One verdict object `{id, status, reason}` as pushed by the auditor's
`pass` / `fail` / `na` helpers (aicode-review.js lines 29-38). -/
structure Verdict where
  id : String
  status : Status
  reason : String
deriving DecidableEq, Repr

/-- `ChecklistItem`: `{id, description}` (extension.js interface, spec §3). -/
structure ChecklistItem where
  id : String
  description : String
deriving DecidableEq, Repr

/-- `Category`: `{name, items}`; the auditor only dereferences `items`. -/
structure Category where
  name : String
  items : List ChecklistItem
deriving DecidableEq, Repr

/-- `ChecklistDocument`: `{version, categories}`. -/
structure ChecklistDocument where
  version : String
  categories : List Category
deriving DecidableEq, Repr

/-- Truthiness of the `scripts` fields the auditor reads from
`package.json` (`scripts.lint`, `scripts.test`, `scripts.build`). -/
structure Scripts where
  lint : Bool
  test : Bool
  build : Bool
deriving DecidableEq, Repr

/-- Truthiness of the `devDependencies` fields the auditor reads
(`jest`, `eslint`, `prettier`). -/
structure DevDeps where
  jest : Bool
  eslint : Bool
  prettier : Bool
deriving DecidableEq, Repr

/-- The parts of a parsed `package.json` the auditor dereferences; each
`Option` records whether the corresponding field is truthy at all
(`packageObj.scripts && ...`, `packageObj.devDependencies && ...`). -/
structure PackageObj where
  scripts : Option Scripts
  devDependencies : Option DevDeps
deriving DecidableEq, Repr

/-- One file visited by `walk` during the secret scan: its full joined
path and the outcome of `fs.readFileSync` (`none` = the read threw and
the file is silently skipped, per the empty catch at line 89). -/
structure FileEntry where
  path : String
  content : Option String
deriving DecidableEq, Repr

/-- The filesystem / subprocess oracle for one auditor run: outcomes of
every primitive the script consults.  `dirTest`/`dirTests`/`dirTestsUS`
are `exists(path.join(root, dir))` for `test`, `tests`, `__tests__`;
`packageObj` is the parsed `package.json` when present; `files` is the
sequence of file paths the recursive `walk` visits (in visit order) with
their read outcomes; `lintOk` / `testOk` say whether the
`npm run lint` / `npm test` call through `child.execSync` returns without
throwing (exit zero within the timeout); the three config booleans are the
`exists` results for `.eslintrc`, `.eslintrc.js`, `.prettierrc`. -/
structure Env where
  dirTest : Bool
  dirTests : Bool
  dirTestsUS : Bool
  packageObj : Option PackageObj
  files : List FileEntry
  lintOk : Bool
  testOk : Bool
  eslintrc : Bool
  eslintrcJs : Bool
  prettierrc : Bool
deriving DecidableEq, Repr

/-- `checklist.categories.some(c => c.items.some(i => i.id === s))` —
the guard each heuristic block uses (lines 44, 55, 78, 96). -/
def hasItem (doc : ChecklistDocument) (s : String) : Bool :=
  doc.categories.any fun c => c.items.any fun i => i.id == s

/-- All items of the document in category order — the iteration space of
the final fallback double loop (lines 103-108). -/
def allItems (doc : ChecklistDocument) : List ChecklistItem :=
  doc.categories.flatMap Category.items

/-- The `test_exists` block (lines 43-52): Pass when a `test`, `tests`
or `__tests__` directory exists, or `package.json` has a truthy
`scripts.test` or `devDependencies.jest`. -/
def testExistsVerdict (env : Env) : Verdict :=
  let hasTests := env.dirTest || env.dirTests || env.dirTestsUS ||
    (match env.packageObj with
     | some p =>
        (match p.scripts with | some s => s.test | none => false) ||
        (match p.devDependencies with | some d => d.jest | none => false)
     | none => false)
  if hasTests then
    ⟨"test_exists", Status.Pass, "Tests folder or test script detected."⟩
  else
    ⟨"test_exists", Status.Fail, "No tests detected (no test folder or test script)."⟩

/-- The `test_checks` block (lines 54-75): guarded by
`packageObj && packageObj.scripts && (lint || test || build)`; runs the
lint script if declared, else the test script if declared, else marks
NeedsAttention; a throwing `execSync` (non-zero exit or timeout) is
caught and converted to a Fail.  Command output is never inspected —
only the exit outcome booleans of the oracle are consulted. -/
def testChecksVerdict (env : Env) : Verdict :=
  match env.packageObj with
  | some p =>
    match p.scripts with
    | some s =>
      if s.lint || s.test || s.build then
        if s.lint then
          if env.lintOk then ⟨"test_checks", Status.Pass, "Lint passed."⟩
          else ⟨"test_checks", Status.Fail, "Lint/tests failed (see job logs)."⟩
        else if s.test then
          if env.testOk then ⟨"test_checks", Status.Pass, "Tests passed."⟩
          else ⟨"test_checks", Status.Fail, "Lint/tests failed (see job logs)."⟩
        else
          ⟨"test_checks", Status.NeedsAttention, "No lint/test script found to run."⟩
      else
        ⟨"test_checks", Status.NeedsAttention, "No package.json scripts to run (skipped)."⟩
    | none =>
      ⟨"test_checks", Status.NeedsAttention, "No package.json scripts to run (skipped)."⟩
  | none =>
    ⟨"test_checks", Status.NeedsAttention, "No package.json scripts to run (skipped)."⟩

/-- ASCII lowercasing, `s.toLowerCase()`. -/
def lowerStr (s : String) : String :=
  ⟨s.data.map Char.toLower⟩

/-- Whether `pat` occurs as a contiguous run in the character list. -/
def containsSubList (pat : List Char) : List Char → Bool
  | [] => pat.isEmpty
  | c :: rest => pat.isPrefixOf (c :: rest) || containsSubList pat rest

/-- Boolean substring test used to model `fp.includes(pat)`. -/
def containsSub (s pat : String) : Bool :=
  containsSubList pat.data s.data

/-- The final path component (after the last separator). -/
def afterLastSlash (l : List Char) : List Char :=
  l.foldl (fun acc c => if c = '/' then [] else acc ++ [c]) []

/-- `path.extname(fp)` for the paths produced by `walk` (which always
contain a separator): the part of the final component from its last dot
on, empty when there is no dot or when the only dot is the leading one
(so a dotfile such as `.gitignore` has no extension). -/
def extname (p : String) : String :=
  let b := afterLastSlash p.data
  let rev := b.reverse
  let pre := rev.takeWhile (fun c => !(c == '.'))
  if pre.length = rev.length then ""
  else if pre.length + 1 = rev.length then ""
  else ⟨(rev.take (pre.length + 1)).reverse⟩

/-- `Array.join(sep)` on the suspicious-path list. -/
def joinSep (sep : String) : List String → String
  | [] => ""
  | [x] => x
  | x :: xs => x ++ sep ++ joinSep sep xs

/-- The extension exclusion list of the secret scan (line 83). -/
def excludedExts : List String :=
  [".md", ".png", ".jpg", ".jpeg", ".gif", ".ico", ".bin"]

/-- The lowercase literals denoted by the secret regex
`/(api[_-]?key|secret|password|passwd|aws_secret|aws_access|SECRET_KEY|PRIVATE_KEY|TOKEN)/i`
(line 86): the optional `[_-]` class expands `api[_-]?key` into three
literals, and the `i` flag makes every alternative case-insensitive. -/
def secretLiterals : List String :=
  ["apikey", "api_key", "api-key", "secret", "password", "passwd",
   "aws_secret", "aws_access", "secret_key", "private_key", "token"]

/-- `regex.test(txt)` for the secret regex: the lowercased text contains
one of the expanded literals. -/
def secretScanHit (txt : String) : Bool :=
  secretLiterals.any fun tok => containsSub (lowerStr txt) tok

/-- The walk callback of the secret scan (lines 80-90) as a predicate:
a file lands in `suspicious` iff its full path contains neither
`node_modules` nor `.git` as a substring, its lowercased extension is
not excluded, its read succeeded, and the regex matches its content. -/
def fileMatches (f : FileEntry) : Bool :=
  !(containsSub f.path "node_modules" || containsSub f.path ".git") &&
  !(excludedExts.contains (lowerStr (extname f.path))) &&
  (match f.content with
   | some txt => secretScanHit txt
   | none => false)

/-- The `sec_secrets` block (lines 77-93). -/
def secSecretsVerdict (env : Env) : Verdict :=
  let suspicious := (env.files.filter fileMatches).map FileEntry.path
  if suspicious.length > 0 then
    ⟨"sec_secrets", Status.Fail,
      "Potential secrets found in files: " ++ joinSep ", " (suspicious.take 5)⟩
  else
    ⟨"sec_secrets", Status.Pass, "No obvious hardcoded secrets found."⟩

/-- The `read_format` block (lines 95-100). -/
def readFormatVerdict (env : Env) : Verdict :=
  let hasFormat := env.eslintrc || env.eslintrcJs || env.prettierrc ||
    (match env.packageObj with
     | some p =>
        (match p.devDependencies with
         | some d => d.eslint || d.prettier
         | none => false)
     | none => false)
  if hasFormat then
    ⟨"read_format", Status.Pass, "Formatter/linter config detected."⟩
  else
    ⟨"read_format", Status.NeedsAttention,
      "No linter/formatter config found (recommend adding ESLint/Prettier)."⟩

/-- The ids with a dedicated heuristic block (line 105). -/
def recognizedIds : List String :=
  ["test_exists", "test_checks", "sec_secrets", "read_format"]

/-- The fallback verdict pushed for an unrecognized item id (line 106). -/
def naFallback (s : String) : Verdict :=
  ⟨s, Status.NeedsAttention, "Automated check not available; manual review recommended."⟩

/-- The four guarded heuristic blocks in program order: each pushes its
verdict onto `results` only when its id occurs in the checklist. -/
def baseResults (doc : ChecklistDocument) (env : Env) : List Verdict :=
  (if hasItem doc "test_exists" then [testExistsVerdict env] else []) ++
  (if hasItem doc "test_checks" then [testChecksVerdict env] else []) ++
  (if hasItem doc "sec_secrets" then [secSecretsVerdict env] else []) ++
  (if hasItem doc "read_format" then [readFormatVerdict env] else [])

/-- The final double loop (lines 102-108): for every item whose id is
not one of the recognized four and has no verdict yet, append the
NeedsAttention fallback. -/
def fallbackLoop : List ChecklistItem → List Verdict → List Verdict
  | [], acc => acc
  | i :: rest, acc =>
    if recognizedIds.contains i.id then fallbackLoop rest acc
    else if acc.any (fun r => r.id == i.id) then fallbackLoop rest acc
    else fallbackLoop rest (acc ++ [naFallback i.id])

/-- The complete verdict list of one auditor run over a loaded document. -/
def runChecks (doc : ChecklistDocument) (env : Env) : List Verdict :=
  fallbackLoop (allItems doc) (baseResults doc env)

/-- `results.some status Fail` — the derived form of the `hasFail` flag:
`fail` (line 29) is the only helper that pushes a Fail verdict and it
always sets the flag, so the flag is true iff a Fail verdict was pushed. -/
def statusIsFail (v : Verdict) : Bool :=
  match v.status with
  | Status.Fail => true
  | _ => false

/-- Exit-code selection (lines 112-118). -/
def auditExitCode (doc : ChecklistDocument) (env : Env) : Nat :=
  if (runChecks doc env).any statusIsFail then 1 else 0

/-- One complete auditor invocation, given the outcome of loading
`.aicodechecklist.json`: `none` models `exists(checklistPath)` false
(lines 20-23) — exit 2 before any check runs. -/
def auditMain (checklistFile : Option ChecklistDocument) (env : Env) :
    List Verdict × Nat :=
  match checklistFile with
  | none => ([], 2)
  | some doc => (runChecks doc env, auditExitCode doc env)

/-! ## Checklist loading (both front ends)

The outcome of `fs.readFile` + `JSON.parse` on `.aicodechecklist.json` is
modelled as an oracle `Option (Option ChecklistDocument)`: `none` = the
read itself fails (file absent or unreadable), `some none` = the file is
read but its content does not parse, `some (some d)` = it parses to `d`. -/

/-- What the batch auditor does with the checklist file
(aicode-review.js lines 18-24): absence is caught by the `exists` guard
(exit 2), but `readJSON` has no try/catch, so malformed content throws
an uncaught `JSON.parse` exception past the loader. -/
inductive BatchLoad where
  | exitTwo
  | uncaughtException
  | loaded (doc : ChecklistDocument)
deriving DecidableEq, Repr

/-- `readJSON(checklistPath)` guarded by `exists` (lines 18-24). -/
def batchChecklistLoad (file : Option (Option ChecklistDocument)) : BatchLoad :=
  match file with
  | none => BatchLoad.exitTwo
  | some none => BatchLoad.uncaughtException
  | some (some doc) => BatchLoad.loaded doc

/-- `loadChecklist()` of the interactive reviewer (extension.js lines
58-74): no workspace folder, a failing read, and a failing parse all
land in the `catch` / early return and yield `null`. -/
def loadChecklistInteractive (foldersPresent : Bool)
    (file : Option (Option ChecklistDocument)) : Option ChecklistDocument :=
  if foldersPresent then
    match file with
    | none => none
    | some none => none
    | some (some doc) => some doc
  else none

/-! ## The remote-judge path (extension.js `runLLMReview`)

JavaScript strings are modelled as `List Char` here so that
`trim` / `replace` become list operations.  Whitespace is
`Char.isWhitespace`. -/

/-- `s.dropWhile isWhitespace` — the effect of `trimStart` and of the
greedy `\s*` following an anchored fence marker. -/
def wsDrop (l : List Char) : List Char :=
  l.dropWhile Char.isWhitespace

/-- Remove trailing whitespace: reverse, drop leading whitespace,
reverse back. -/
def wsDropEnd (l : List Char) : List Char :=
  (l.reverse.dropWhile Char.isWhitespace).reverse

/-- `content.trim()`. -/
def jsTrim (l : List Char) : List Char :=
  wsDropEnd (wsDrop l)

/-- The three-backtick fence marker. -/
def fence : List Char := ['`', '`', '`']

/-- The tagged opening marker, 7 characters. -/
def fenceJsonTag : List Char := fence ++ ['j', 's', 'o', 'n']

/-- The replace step erasing the anchored regex `\s*` + three
backticks + end-of-string: it matches iff
the string ends with three backticks, and (leftmost-longest) it then
removes that final fence together with the maximal whitespace run
before it. -/
def stripClosing (s : List Char) : List Char :=
  if fence.isSuffixOf s then
    ((s.reverse.drop 3).dropWhile Char.isWhitespace).reverse
  else s

/-- The replace step erasing the anchored opening marker and the
following `\s*` run, in the branch where the corresponding
`startsWith` already holds: drop the marker, then the whitespace. -/
def stripOpening (tagLen : Nat) (s : List Char) : List Char :=
  wsDrop (s.drop tagLen)

/-- The branch on the already-trimmed text: `startsWith` selects the
tagged fence, the plain fence, or no stripping at all. -/
def stripFenceTrimmed (s : List Char) : List Char :=
  if fenceJsonTag.isPrefixOf s then stripClosing (stripOpening 7 s)
  else if fence.isPrefixOf s then stripClosing (stripOpening 3 s)
  else s

/-- The fence-stripping step of `runLLMReview` (extension.js lines
130-136): trim, then if the text starts with a tagged or plain fence,
remove the opening marker plus following whitespace and the closing
fence plus preceding whitespace. -/
def stripFence (content : List Char) : List Char :=
  stripFenceTrimmed (jsTrim content)

/-- The judge response wrapped in a tagged fence: the tag line, a
newline, the inner text, a newline, the closing fence. -/
def wrapJson (t : List Char) : List Char :=
  fenceJsonTag ++ '\n' :: (t ++ '\n' :: fence)

/-- The judge response wrapped in a plain fence: three backticks, a
newline, the inner text, a newline, the closing fence. -/
def wrapPlain (t : List Char) : List Char :=
  fence ++ '\n' :: (t ++ '\n' :: fence)

/-- Outcome of the whole `runLLMReview` call: a returned verdict value
or a thrown `Error` with its message. -/
inductive LLMOutcome (α : Type) where
  | ok (value : α)
  | error (msg : List Char)
deriving DecidableEq, Repr

/-- The network oracle: the outcome of the single `fetch` to the chat
endpoint.  `httpError` is `!response.ok` with status and body text;
`success` carries `data.choices[0].message.content`. -/
inductive FetchResult where
  | httpError (status : Nat) (body : List Char)
  | success (content : List Char)
deriving DecidableEq, Repr

/-- `runLLMReview` (extension.js lines 75-143), abstracted over the
host primitives: `apiKey` is `process.env.OPENAI_API_KEY`, `net` the
fetch outcome, and `parse` the `JSON.parse` oracle (`none` = throws).
The second component counts outbound network requests.  The `try` block
wraps stripping and parsing; a parse failure is rethrown as the
diagnostic `Error` carrying the raw, unstripped `content`. -/
def runLLMReview {α : Type} (apiKey : Option (List Char)) (net : FetchResult)
    (parse : List Char → Option α) : LLMOutcome α × Nat :=
  match apiKey with
  | none =>
    (LLMOutcome.error "OPENAI_API_KEY environment variable not set.".toList, 0)
  | some _ =>
    match net with
    | FetchResult.httpError status body =>
      (LLMOutcome.error
        (("OpenAI API error: " ++ toString status ++ " ").toList ++ body), 1)
    | FetchResult.success content =>
      match parse (stripFence content) with
      | some v => (LLMOutcome.ok v, 1)
      | none =>
        (LLMOutcome.error ("Failed to parse LLM JSON: ".toList ++ content), 1)

/-! ## Spec-side comparison definitions

These follow the wording of the spec's claims (not the code) and exist
to be compared with the code-derived definitions above. -/

/-- Spec wording: `package.json` declares a test script.  (Code reads
the truthiness of `packageObj.scripts.test`.) -/
def declaresTestScript (env : Env) : Bool :=
  match env.packageObj with
  | some p => (match p.scripts with | some s => s.test | none => false)
  | none => false

/-- Spec wording: `package.json` declares a lint script. -/
def declaresLintScript (env : Env) : Bool :=
  match env.packageObj with
  | some p => (match p.scripts with | some s => s.lint | none => false)
  | none => false

/-- Spec wording: `package.json` declares a test-framework dependency
(`jest` in `devDependencies` is the framework the heuristic recognizes). -/
def declaresJestDep (env : Env) : Bool :=
  match env.packageObj with
  | some p => (match p.devDependencies with | some d => d.jest | none => false)
  | none => false

/-- Spec wording of claim C3: a `test`, `tests`, or `__tests__`
directory exists at the root OR `package.json` declares a test script or
a test-framework dependency. -/
def specTestExistsPass (env : Env) : Bool :=
  env.dirTest || env.dirTests || env.dirTestsUS ||
    declaresTestScript env || declaresJestDep env

/-- Spec wording of claim C9: if a lint script is declared it is run and
the verdict is Pass on exit zero, Fail otherwise; else if a test script
is declared it is run the same way; else NeedsAttention. -/
def specTestChecksStatus (env : Env) : Status :=
  if declaresLintScript env then
    (if env.lintOk then Status.Pass else Status.Fail)
  else if declaresTestScript env then
    (if env.testOk then Status.Pass else Status.Fail)
  else Status.NeedsAttention

/-- The ten trigger substrings claim C2 lists (lowercased; the claim
asserts case-insensitive containment).  The code's regex additionally
matches the separator-free `apikey`, which is the discrepancy. -/
def specC2Tokens : List String :=
  ["api_key", "api-key", "secret", "password", "passwd",
   "aws_secret", "aws_access", "secret_key", "private_key", "token"]

/-! ## Concrete inputs used by counterexamples and witnesses -/

/-- A checklist containing only the `sec_secrets` item. -/
def secOnlyDoc : ChecklistDocument :=
  ⟨"1", [⟨"Security", [⟨"sec_secrets", "No hardcoded secrets"⟩]⟩]⟩

/-- A repository with a single source file whose content is the bare
word `apikey`: matched by the code's regex, but containing none of the
ten substrings claim C2 lists. -/
def apikeyEnv : Env :=
  ⟨false, false, false, none, [⟨"/repo/app.js", some "apikey"⟩],
   false, false, false, false, false⟩

/-- A repository whose only file is a top-level `.gitignore` containing
the word `password`: the path-substring exclusion skips it. -/
def gitignoreEnv : Env :=
  ⟨false, false, false, none, [⟨"/repo/.gitignore", some "password"⟩],
   false, false, false, false, false⟩

/-- A repository with one file inside `node_modules` containing a
trigger word, for the C10 witness. -/
def nodeModulesEnv : Env :=
  ⟨false, false, false, none, [⟨"/repo/node_modules/a.js", some "token"⟩],
   false, false, false, false, false⟩

/-- A checklist with one recognized and one unrecognized item. -/
def mixedDoc : ChecklistDocument :=
  ⟨"1", [⟨"Tests", [⟨"test_exists", "Tests exist"⟩]⟩,
         ⟨"Custom", [⟨"custom_x", "Custom check"⟩]⟩]⟩

/-- A bare repository: no test directories, no `package.json`, no files. -/
def bareEnv : Env :=
  ⟨false, false, false, none, [], false, false, false, false, false⟩

/-- A checklist containing only the `test_checks` item. -/
def checksDoc : ChecklistDocument :=
  ⟨"1", [⟨"Tests", [⟨"test_checks", "Lint and tests pass"⟩]⟩]⟩

/-- A repository with a `tests` directory and a `package.json` declaring
a lint script that exits zero. -/
def lintOkEnv : Env :=
  ⟨false, true, false, some ⟨some ⟨true, false, false⟩, none⟩, [],
   true, false, false, false, false⟩

/-! ## Infrastructure lemmas about the auditor pipeline -/

lemma testExistsVerdict_id (env : Env) : (testExistsVerdict env).id = "test_exists" := by
  simp only [testExistsVerdict]
  split <;> rfl

lemma testChecksVerdict_id (env : Env) : (testChecksVerdict env).id = "test_checks" := by
  unfold testChecksVerdict
  repeat' split
  all_goals rfl

lemma secSecretsVerdict_id (env : Env) : (secSecretsVerdict env).id = "sec_secrets" := by
  simp only [secSecretsVerdict]
  split <;> rfl

lemma readFormatVerdict_id (env : Env) : (readFormatVerdict env).id = "read_format" := by
  simp only [readFormatVerdict]
  split <;> rfl

lemma naFallback_id (s : String) : (naFallback s).id = s := rfl

lemma mem_if_single {b : Bool} {x v : Verdict} :
    v ∈ (if b then [x] else ([] : List Verdict)) ↔ b = true ∧ v = x := by
  cases b <;> simp

/-- Membership in the four guarded heuristic pushes. -/
lemma mem_baseResults {doc : ChecklistDocument} {env : Env} {v : Verdict} :
    v ∈ baseResults doc env ↔
      (hasItem doc "test_exists" = true ∧ v = testExistsVerdict env) ∨
      (hasItem doc "test_checks" = true ∧ v = testChecksVerdict env) ∨
      (hasItem doc "sec_secrets" = true ∧ v = secSecretsVerdict env) ∨
      (hasItem doc "read_format" = true ∧ v = readFormatVerdict env) := by
  unfold baseResults
  simp only [List.mem_append, mem_if_single]
  tauto

lemma hasItem_iff {doc : ChecklistDocument} {s : String} :
    hasItem doc s = true ↔ ∃ i ∈ allItems doc, i.id = s := by
  simp only [hasItem, allItems, List.any_eq_true, List.mem_flatMap, beq_iff_eq]
  constructor
  · rintro ⟨c, hc, i, hi, hid⟩
    exact ⟨i, ⟨c, hc, hi⟩, hid⟩
  · rintro ⟨i, ⟨c, hc, hi⟩, hid⟩
    exact ⟨c, hc, i, hi, hid⟩

/-- The fallback loop only ever appends, so it preserves membership. -/
lemma mem_fallbackLoop_of_mem :
    ∀ (items : List ChecklistItem) (acc : List Verdict) (v : Verdict),
      v ∈ acc → v ∈ fallbackLoop items acc := by
  intro items
  induction items with
  | nil => intro acc v h; exact h
  | cons i rest ih =>
    intro acc v h
    unfold fallbackLoop
    split
    · exact ih acc v h
    · split
      · exact ih acc v h
      · exact ih _ v (List.mem_append_left _ h)

/-- Everything the fallback loop returns is either in the accumulator or
the NeedsAttention fallback of an unrecognized item. -/
lemma mem_fallbackLoop_elim :
    ∀ (items : List ChecklistItem) (acc : List Verdict) (v : Verdict),
      v ∈ fallbackLoop items acc →
      v ∈ acc ∨ ∃ i, i ∈ items ∧ recognizedIds.contains i.id = false ∧
        v = naFallback i.id := by
  intro items
  induction items with
  | nil => intro acc v h; exact Or.inl h
  | cons i rest ih =>
    intro acc v h
    unfold fallbackLoop at h
    split at h
    · rcases ih acc v h with h1 | ⟨j, hj, hjr, he⟩
      · exact Or.inl h1
      · exact Or.inr ⟨j, List.mem_cons_of_mem _ hj, hjr, he⟩
    · rename_i hrec
      rw [Bool.not_eq_true] at hrec
      split at h
      · rcases ih acc v h with h1 | ⟨j, hj, hjr, he⟩
        · exact Or.inl h1
        · exact Or.inr ⟨j, List.mem_cons_of_mem _ hj, hjr, he⟩
      · rcases ih _ v h with h1 | ⟨j, hj, hjr, he⟩
        · rcases List.mem_append.mp h1 with h2 | h2
          · exact Or.inl h2
          · refine Or.inr ⟨i, List.mem_cons_self _ _, hrec, ?_⟩
            simpa using h2
        · exact Or.inr ⟨j, List.mem_cons_of_mem _ hj, hjr, he⟩

/-- If every verdict already in the accumulator with an unrecognized id
is the fallback verdict of that id, the loop puts the fallback verdict
of every unrecognized item into the output. -/
lemma naFallback_mem_fallbackLoop :
    ∀ (items : List ChecklistItem) (acc : List Verdict),
      (∀ r ∈ acc, recognizedIds.contains r.id = false → r = naFallback r.id) →
      ∀ i ∈ items, recognizedIds.contains i.id = false →
        naFallback i.id ∈ fallbackLoop items acc := by
  intro items
  induction items with
  | nil => intro acc _ i hi; exact absurd hi (List.not_mem_nil _)
  | cons j rest ih =>
    intro acc hP i hi hrec
    rcases List.mem_cons.mp hi with rfl | hi'
    · unfold fallbackLoop
      split
      · rename_i hcontra
        rw [hrec] at hcontra
        exact absurd hcontra (by simp)
      · split
        · rename_i hacc
          obtain ⟨r, hr, hrid⟩ := List.any_eq_true.mp hacc
          have hrid' : r.id = i.id := by simpa using hrid
          have hna : r = naFallback r.id := hP r hr (by rw [hrid']; exact hrec)
          have hv : naFallback i.id ∈ acc := by rw [← hrid', ← hna]; exact hr
          exact mem_fallbackLoop_of_mem _ _ _ hv
        · exact mem_fallbackLoop_of_mem _ _ _
            (List.mem_append_right _ (List.mem_singleton.mpr rfl))
    · unfold fallbackLoop
      split
      · exact ih acc hP i hi' hrec
      · split
        · exact ih acc hP i hi' hrec
        · refine ih _ ?_ i hi' hrec
          intro r hr hrrec
          rcases List.mem_append.mp hr with h2 | h2
          · exact hP r h2 hrrec
          · have : r = naFallback j.id := by simpa using h2
            subst this
            rfl

/-- The recognized-id base verdicts have recognized ids, so the
accumulator invariant of `naFallback_mem_fallbackLoop` holds for
`baseResults`. -/
lemma baseResults_invariant (doc : ChecklistDocument) (env : Env) :
    ∀ r ∈ baseResults doc env,
      recognizedIds.contains r.id = false → r = naFallback r.id := by
  intro r hr hrec
  rcases mem_baseResults.mp hr with ⟨_, rfl⟩ | ⟨_, rfl⟩ | ⟨_, rfl⟩ | ⟨_, rfl⟩ <;>
    simp [testExistsVerdict_id, testChecksVerdict_id, secSecretsVerdict_id,
      readFormatVerdict_id, recognizedIds] at hrec

/-- A verdict of the full run carrying the id `sec_secrets` can only be
the one the `sec_secrets` block produced. -/
lemma runChecks_sec_eq {doc : ChecklistDocument} {env : Env} {v : Verdict}
    (h : v ∈ runChecks doc env) (hid : v.id = "sec_secrets") :
    v = secSecretsVerdict env := by
  rcases mem_fallbackLoop_elim _ _ _ h with h1 | ⟨i, _, hir, rfl⟩
  · rcases mem_baseResults.mp h1 with ⟨_, rfl⟩ | ⟨_, rfl⟩ | ⟨_, rfl⟩ | ⟨_, rfl⟩
    · rw [testExistsVerdict_id] at hid; exact absurd hid (by decide)
    · rw [testChecksVerdict_id] at hid; exact absurd hid (by decide)
    · rfl
    · rw [readFormatVerdict_id] at hid; exact absurd hid (by decide)
  · rw [naFallback_id] at hid
    rw [hid] at hir
    exact absurd hir (by decide)

/-- A verdict of the full run carrying the id `test_exists` can only be
the one the `test_exists` block produced. -/
lemma runChecks_testExists_eq {doc : ChecklistDocument} {env : Env} {v : Verdict}
    (h : v ∈ runChecks doc env) (hid : v.id = "test_exists") :
    v = testExistsVerdict env := by
  rcases mem_fallbackLoop_elim _ _ _ h with h1 | ⟨i, _, hir, rfl⟩
  · rcases mem_baseResults.mp h1 with ⟨_, rfl⟩ | ⟨_, rfl⟩ | ⟨_, rfl⟩ | ⟨_, rfl⟩
    · rfl
    · rw [testChecksVerdict_id] at hid; exact absurd hid (by decide)
    · rw [secSecretsVerdict_id] at hid; exact absurd hid (by decide)
    · rw [readFormatVerdict_id] at hid; exact absurd hid (by decide)
  · rw [naFallback_id] at hid
    rw [hid] at hir
    exact absurd hir (by decide)

/-- A verdict of the full run carrying the id `test_checks` can only be
the one the `test_checks` block produced. -/
lemma runChecks_testChecks_eq {doc : ChecklistDocument} {env : Env} {v : Verdict}
    (h : v ∈ runChecks doc env) (hid : v.id = "test_checks") :
    v = testChecksVerdict env := by
  rcases mem_fallbackLoop_elim _ _ _ h with h1 | ⟨i, _, hir, rfl⟩
  · rcases mem_baseResults.mp h1 with ⟨_, rfl⟩ | ⟨_, rfl⟩ | ⟨_, rfl⟩ | ⟨_, rfl⟩
    · rw [testExistsVerdict_id] at hid; exact absurd hid (by decide)
    · rfl
    · rw [secSecretsVerdict_id] at hid; exact absurd hid (by decide)
    · rw [readFormatVerdict_id] at hid; exact absurd hid (by decide)
  · rw [naFallback_id] at hid
    rw [hid] at hir
    exact absurd hir (by decide)

lemma statusIsFail_iff {v : Verdict} : statusIsFail v = true ↔ v.status = Status.Fail := by
  unfold statusIsFail
  cases v.status <;> simp

/-- The code's `hasTests` condition coincides with the spec's wording. -/
lemma testExistsVerdict_status (env : Env) :
    (testExistsVerdict env).status =
      (if specTestExistsPass env then Status.Pass else Status.Fail) := by
  obtain ⟨d1, d2, d3, po, fs, lo, t2, e1, e2, e3⟩ := env
  unfold testExistsVerdict specTestExistsPass declaresTestScript declaresJestDep
  rcases po with _ | ⟨ps, pd⟩
  · simp only [apply_ite Verdict.status, Bool.or_false]
  · rcases ps with _ | ⟨sl, st, sb⟩ <;> rcases pd with _ | ⟨dj, de, dp⟩ <;>
      simp only [apply_ite Verdict.status, Bool.or_assoc, Bool.or_false,
        Bool.false_or]

/-- The code's `test_checks` branch structure coincides with the spec's
lint-first case analysis, including the build-only corner. -/
lemma testChecksVerdict_status (env : Env) :
    (testChecksVerdict env).status = specTestChecksStatus env := by
  obtain ⟨d1, d2, d3, po, fs, lo, t2, e1, e2, e3⟩ := env
  unfold testChecksVerdict specTestChecksStatus declaresLintScript declaresTestScript
  rcases po with _ | ⟨ps, pd⟩
  · rfl
  · rcases ps with _ | ⟨sl, st, sb⟩
    · rfl
    · cases sl <;> cases st <;> cases sb <;>
        simp [apply_ite Verdict.status]

/-- The walk-callback predicate, spelled out. -/
lemma fileMatches_iff {f : FileEntry} :
    fileMatches f = true ↔
      (containsSub f.path "node_modules" || containsSub f.path ".git") = false ∧
      excludedExts.contains (lowerStr (extname f.path)) = false ∧
      ∃ txt, f.content = some txt ∧ secretScanHit txt = true := by
  unfold fileMatches
  rcases hc : f.content with _ | txt <;> simp [hc]
  tauto

/-- Nonemptiness of the `suspicious` list is existence of a matching
file. -/
lemma suspicious_pos_iff (env : Env) :
    ((env.files.filter fileMatches).map FileEntry.path).length > 0 ↔
      ∃ f ∈ env.files, fileMatches f = true := by
  simp only [List.length_map, gt_iff_lt, List.length_pos, ne_eq]
  constructor
  · intro hne
    obtain ⟨f, hf⟩ := List.exists_mem_of_ne_nil _ hne
    exact ⟨f, (List.mem_filter.mp hf).1, (List.mem_filter.mp hf).2⟩
  · rintro ⟨f, hf, hm⟩
    exact List.ne_nil_of_mem (List.mem_filter.mpr ⟨hf, hm⟩)

/-- Each guarded block's verdict reaches the final result list when its
id occurs in the checklist. -/
lemma testExistsVerdict_mem {doc : ChecklistDocument} {env : Env}
    (h : hasItem doc "test_exists" = true) :
    testExistsVerdict env ∈ runChecks doc env :=
  mem_fallbackLoop_of_mem _ _ _ (mem_baseResults.mpr (Or.inl ⟨h, rfl⟩))

lemma testChecksVerdict_mem {doc : ChecklistDocument} {env : Env}
    (h : hasItem doc "test_checks" = true) :
    testChecksVerdict env ∈ runChecks doc env :=
  mem_fallbackLoop_of_mem _ _ _ (mem_baseResults.mpr (Or.inr (Or.inl ⟨h, rfl⟩)))

lemma secSecretsVerdict_mem {doc : ChecklistDocument} {env : Env}
    (h : hasItem doc "sec_secrets" = true) :
    secSecretsVerdict env ∈ runChecks doc env :=
  mem_fallbackLoop_of_mem _ _ _
    (mem_baseResults.mpr (Or.inr (Or.inr (Or.inl ⟨h, rfl⟩))))

lemma readFormatVerdict_mem {doc : ChecklistDocument} {env : Env}
    (h : hasItem doc "read_format" = true) :
    readFormatVerdict env ∈ runChecks doc env :=
  mem_fallbackLoop_of_mem _ _ _
    (mem_baseResults.mpr (Or.inr (Or.inr (Or.inr ⟨h, rfl⟩))))

/-! ## Claim theorems (batch auditor) -/

/-- C1: for every checklist document fed to the batch heuristic auditor,
the set of verdict ids equals exactly the set of item ids in the
document; every recognized present id receives its heuristic's verdict,
and every other id receives the NeedsAttention fallback with reason
"Automated check not available; manual review recommended.". -/
theorem C1_id_coverage (doc : ChecklistDocument) (env : Env) :
    (∀ x : String,
      x ∈ (runChecks doc env).map Verdict.id ↔
        x ∈ (allItems doc).map ChecklistItem.id) ∧
    (∀ i ∈ allItems doc, recognizedIds.contains i.id = false →
        naFallback i.id ∈ runChecks doc env) ∧
    (hasItem doc "test_exists" = true → testExistsVerdict env ∈ runChecks doc env) ∧
    (hasItem doc "test_checks" = true → testChecksVerdict env ∈ runChecks doc env) ∧
    (hasItem doc "sec_secrets" = true → secSecretsVerdict env ∈ runChecks doc env) ∧
    (hasItem doc "read_format" = true → readFormatVerdict env ∈ runChecks doc env) := by
  refine ⟨?_, ?_, testExistsVerdict_mem, testChecksVerdict_mem,
    secSecretsVerdict_mem, readFormatVerdict_mem⟩
  · intro x
    constructor
    · intro hx
      obtain ⟨v, hv, hvid⟩ := List.mem_map.mp hx
      rcases mem_fallbackLoop_elim _ _ _ hv with h1 | ⟨i, hi, _, rfl⟩
      · rcases mem_baseResults.mp h1 with ⟨hh, rfl⟩ | ⟨hh, rfl⟩ | ⟨hh, rfl⟩ | ⟨hh, rfl⟩
        · obtain ⟨i, hi, hid⟩ := hasItem_iff.mp hh
          exact List.mem_map.mpr ⟨i, hi, by rw [hid, ← testExistsVerdict_id env, hvid]⟩
        · obtain ⟨i, hi, hid⟩ := hasItem_iff.mp hh
          exact List.mem_map.mpr ⟨i, hi, by rw [hid, ← testChecksVerdict_id env, hvid]⟩
        · obtain ⟨i, hi, hid⟩ := hasItem_iff.mp hh
          exact List.mem_map.mpr ⟨i, hi, by rw [hid, ← secSecretsVerdict_id env, hvid]⟩
        · obtain ⟨i, hi, hid⟩ := hasItem_iff.mp hh
          exact List.mem_map.mpr ⟨i, hi, by rw [hid, ← readFormatVerdict_id env, hvid]⟩
      · exact List.mem_map.mpr ⟨i, hi, by rw [← hvid]; rfl⟩
    · intro hx
      obtain ⟨i, hi, hid⟩ := List.mem_map.mp hx
      rcases hrec : recognizedIds.contains i.id with _ | _
      · exact List.mem_map.mpr
          ⟨naFallback i.id,
           naFallback_mem_fallbackLoop _ _ (baseResults_invariant doc env) i hi hrec,
           hid⟩
      · have hxmem : i.id = "test_exists" ∨ i.id = "test_checks" ∨
            i.id = "sec_secrets" ∨ i.id = "read_format" := by
          simpa [recognizedIds] using hrec
        have hhas : hasItem doc i.id = true := hasItem_iff.mpr ⟨i, hi, rfl⟩
        rcases hxmem with he | he | he | he
        · exact List.mem_map.mpr ⟨testExistsVerdict env,
            testExistsVerdict_mem (by rw [← he]; exact hhas),
            by rw [testExistsVerdict_id, ← he, hid]⟩
        · exact List.mem_map.mpr ⟨testChecksVerdict env,
            testChecksVerdict_mem (by rw [← he]; exact hhas),
            by rw [testChecksVerdict_id, ← he, hid]⟩
        · exact List.mem_map.mpr ⟨secSecretsVerdict env,
            secSecretsVerdict_mem (by rw [← he]; exact hhas),
            by rw [secSecretsVerdict_id, ← he, hid]⟩
        · exact List.mem_map.mpr ⟨readFormatVerdict env,
            readFormatVerdict_mem (by rw [← he]; exact hhas),
            by rw [readFormatVerdict_id, ← he, hid]⟩
  · intro i hi hrec
    exact naFallback_mem_fallbackLoop _ _ (baseResults_invariant doc env) i hi hrec

/-- C1 witness: the unrecognized id `custom_x` receives the fallback
verdict in a concrete run. -/
theorem C1_id_coverage_witness :
    recognizedIds.contains "custom_x" = false ∧
    naFallback "custom_x" ∈ runChecks mixedDoc bareEnv :=
  ⟨by decide,
   (C1_id_coverage mixedDoc bareEnv).2.1 ⟨"custom_x", "Custom check"⟩
     (by decide) (by decide)⟩

/-- C3: with `test_exists` present in the checklist, its verdict is Pass
iff a `test`/`tests`/`__tests__` directory exists or `package.json`
declares a test script or the recognized test-framework dependency, and
Fail otherwise. -/
theorem C3_test_exists (doc : ChecklistDocument) (env : Env)
    (h : hasItem doc "test_exists" = true) :
    (∃ v ∈ runChecks doc env, v.id = "test_exists") ∧
    ∀ v ∈ runChecks doc env, v.id = "test_exists" →
      v.status = (if specTestExistsPass env then Status.Pass else Status.Fail) := by
  refine ⟨⟨testExistsVerdict env, testExistsVerdict_mem h, testExistsVerdict_id env⟩, ?_⟩
  intro v hv hvid
  rw [runChecks_testExists_eq hv hvid]
  exact testExistsVerdict_status env

/-- C3 witness: concrete run with a `tests` directory present. -/
theorem C3_test_exists_witness :
    hasItem mixedDoc "test_exists" = true ∧
    ((∃ v ∈ runChecks mixedDoc lintOkEnv, v.id = "test_exists") ∧
     ∀ v ∈ runChecks mixedDoc lintOkEnv, v.id = "test_exists" →
       v.status =
         (if specTestExistsPass lintOkEnv then Status.Pass else Status.Fail)) :=
  ⟨by decide, C3_test_exists mixedDoc lintOkEnv (by decide)⟩

lemma anyFail_iff (rs : List Verdict) :
    rs.any statusIsFail = true ↔ ∃ v ∈ rs, v.status = Status.Fail := by
  rw [List.any_eq_true]
  constructor
  · rintro ⟨v, hv, hf⟩
    exact ⟨v, hv, statusIsFail_iff.mp hf⟩
  · rintro ⟨v, hv, hf⟩
    exact ⟨v, hv, statusIsFail_iff.mpr hf⟩

/-- C4: with the checklist present and parsed, the auditor exits 1 iff
some verdict is Fail and 0 iff every verdict is Pass or NeedsAttention;
a missing checklist yields exit 2 with no verdicts. -/
theorem C4_exit_codes (doc : ChecklistDocument) (env : Env) :
    ((auditMain (some doc) env).2 = 1 ↔
      ∃ v ∈ (auditMain (some doc) env).1, v.status = Status.Fail) ∧
    ((auditMain (some doc) env).2 = 0 ↔
      ∀ v ∈ (auditMain (some doc) env).1,
        v.status = Status.Pass ∨ v.status = Status.NeedsAttention) ∧
    auditMain none env = ([], 2) := by
  have h1 : (auditMain (some doc) env).1 = runChecks doc env := rfl
  have h2 : (auditMain (some doc) env).2 = auditExitCode doc env := rfl
  rw [h1, h2]
  unfold auditExitCode
  refine ⟨?_, ?_, rfl⟩
  · rcases hany : (runChecks doc env).any statusIsFail with _ | _
    · simp only [Bool.false_eq_true, if_false]
      constructor
      · intro hc
        exact absurd hc (by decide)
      · intro hex
        rw [← anyFail_iff, hany] at hex
        exact absurd hex (by decide)
    · simp only [if_true]
      exact ⟨fun _ => (anyFail_iff _).mp hany, fun _ => trivial⟩
  · rcases hany : (runChecks doc env).any statusIsFail with _ | _
    · simp only [Bool.false_eq_true, if_false]
      constructor
      · intro _ v hv
        have hall := List.any_eq_false.mp hany v hv
        cases hs : v.status
        · exact Or.inl rfl
        · exfalso
          exact hall (statusIsFail_iff.mpr hs)
        · exact Or.inr rfl
      · intro _
        trivial
    · simp only [if_true]
      constructor
      · intro hc
        exact absurd hc (by decide)
      · intro hall
        obtain ⟨v, hv, hf⟩ := (anyFail_iff _).mp hany
        rcases hall v hv with hs | hs <;> rw [hf] at hs <;> exact absurd hs (by decide)

/-- C9: with `test_checks` present, the verdict follows the lint-first
case analysis: run lint if declared (Pass iff exit zero), else run the
test script if declared, else NeedsAttention.  Only the exit outcome of
the executed command enters the decision — the model carries nothing
else of the subprocess. -/
theorem C9_test_checks (doc : ChecklistDocument) (env : Env)
    (h : hasItem doc "test_checks" = true) :
    (∃ v ∈ runChecks doc env, v.id = "test_checks") ∧
    ∀ v ∈ runChecks doc env, v.id = "test_checks" →
      v.status = specTestChecksStatus env := by
  refine ⟨⟨testChecksVerdict env, testChecksVerdict_mem h, testChecksVerdict_id env⟩, ?_⟩
  intro v hv hvid
  rw [runChecks_testChecks_eq hv hvid]
  exact testChecksVerdict_status env

/-- C9 witness: concrete run with a declared lint script that exits
zero. -/
theorem C9_test_checks_witness :
    hasItem checksDoc "test_checks" = true ∧
    ((∃ v ∈ runChecks checksDoc lintOkEnv, v.id = "test_checks") ∧
     ∀ v ∈ runChecks checksDoc lintOkEnv, v.id = "test_checks" →
       v.status = specTestChecksStatus lintOkEnv) :=
  ⟨by decide, C9_test_checks checksDoc lintOkEnv (by decide)⟩

/-- C2 counterexample: a file whose content is the bare word `apikey`
contains none of the ten trigger substrings the claim lists, yet the
code's regex (whose `api[_-]?key` makes the separator optional) matches
it and the `sec_secrets` verdict is Fail. -/
theorem C2_counterexample :
    (∀ f ∈ apikeyEnv.files, ∀ tok ∈ specC2Tokens,
        containsSub (lowerStr (f.content.getD "")) tok = false) ∧
    ∃ v ∈ runChecks secOnlyDoc apikeyEnv,
      v.id = "sec_secrets" ∧ v.status = Status.Fail := by
  decide

/-- C2 amended: with `sec_secrets` present, the verdict is Fail iff some
walked file — path free of the `node_modules` and `.git` substrings,
extension not excluded, read succeeding — has content matched by the
code's secret scan (case-insensitive containment of one of `apikey`,
`api_key`, `api-key`, `secret`, `password`, `passwd`, `aws_secret`,
`aws_access`, `secret_key`, `private_key`, `token`); otherwise it is
Pass, and on Fail the reason lists at most the first five matching
paths. -/
theorem C2_secrets_amended (doc : ChecklistDocument) (env : Env)
    (h : hasItem doc "sec_secrets" = true) :
    (∃ v ∈ runChecks doc env, v.id = "sec_secrets") ∧
    ∀ v ∈ runChecks doc env, v.id = "sec_secrets" →
      ((v.status = Status.Fail ↔
          ∃ f ∈ env.files,
            (containsSub f.path "node_modules" || containsSub f.path ".git") = false ∧
            excludedExts.contains (lowerStr (extname f.path)) = false ∧
            ∃ txt, f.content = some txt ∧ secretScanHit txt = true) ∧
       (v.status ≠ Status.Fail → v.status = Status.Pass) ∧
       (v.status = Status.Fail →
          v.reason = "Potential secrets found in files: " ++
            joinSep ", "
              (((env.files.filter fileMatches).map FileEntry.path).take 5))) := by
  refine ⟨⟨secSecretsVerdict env, secSecretsVerdict_mem h, secSecretsVerdict_id env⟩, ?_⟩
  intro v hv hvid
  rw [runChecks_sec_eq hv hvid]
  simp only [secSecretsVerdict]
  split
  · rename_i hlen
    refine ⟨?_, ?_, ?_⟩
    · constructor
      · intro _
        obtain ⟨f, hf, hm⟩ := (suspicious_pos_iff env).mp hlen
        exact ⟨f, hf, fileMatches_iff.mp hm⟩
      · intro _
        rfl
    · intro hne
      exact absurd rfl hne
    · intro _
      rfl
  · rename_i hlen
    refine ⟨?_, ?_, ?_⟩
    · constructor
      · intro hc
        exact absurd hc (by decide)
      · rintro ⟨f, hf, hc1, hc2, txt, hct, hsh⟩
        exact absurd ((suspicious_pos_iff env).mpr
          ⟨f, hf, fileMatches_iff.mpr ⟨hc1, hc2, txt, hct, hsh⟩⟩) hlen
    · intro _
      rfl
    · intro hps
      exact absurd hps (by decide)

/-- C2 witness for the amended claim, at the `apikey` repository. -/
theorem C2_secrets_amended_witness :
    hasItem secOnlyDoc "sec_secrets" = true ∧
    ((∃ v ∈ runChecks secOnlyDoc apikeyEnv, v.id = "sec_secrets") ∧
     ∀ v ∈ runChecks secOnlyDoc apikeyEnv, v.id = "sec_secrets" →
       ((v.status = Status.Fail ↔
           ∃ f ∈ apikeyEnv.files,
             (containsSub f.path "node_modules" || containsSub f.path ".git") = false ∧
             excludedExts.contains (lowerStr (extname f.path)) = false ∧
             ∃ txt, f.content = some txt ∧ secretScanHit txt = true) ∧
        (v.status ≠ Status.Fail → v.status = Status.Pass) ∧
        (v.status = Status.Fail →
           v.reason = "Potential secrets found in files: " ++
             joinSep ", "
               (((apikeyEnv.files.filter fileMatches).map FileEntry.path).take 5)))) :=
  ⟨by decide, C2_secrets_amended secOnlyDoc apikeyEnv (by decide)⟩

/-- C10: the secret scan's exclusion is a substring test on the whole
path — any walked file whose path contains `node_modules` or `.git`
anywhere never reaches the suspicious list; concretely, a repository
whose only file is a top-level `.gitignore` containing `password` still
gets a Pass for `sec_secrets`. -/
theorem C10_path_exclusion (f : FileEntry)
    (hskip : (containsSub f.path "node_modules" || containsSub f.path ".git") = true) :
    fileMatches f = false ∧
    ∃ v ∈ runChecks secOnlyDoc gitignoreEnv,
      v.id = "sec_secrets" ∧ v.status = Status.Pass := by
  constructor
  · unfold fileMatches
    rw [hskip]
    rfl
  · decide

/-- C10 witness: a file under `node_modules` with a trigger word is
skipped. -/
theorem C10_path_exclusion_witness :
    (containsSub "/repo/node_modules/a.js" "node_modules" ||
       containsSub "/repo/node_modules/a.js" ".git") = true ∧
    (fileMatches ⟨"/repo/node_modules/a.js", some "token"⟩ = false ∧
     ∃ v ∈ runChecks secOnlyDoc gitignoreEnv,
       v.id = "sec_secrets" ∧ v.status = Status.Pass) :=
  ⟨by decide, C10_path_exclusion ⟨"/repo/node_modules/a.js", some "token"⟩ (by decide)⟩

/-- C5 counterexample: in the batch auditor, a checklist file that is
present but malformed is NOT treated like an absent one — it raises an
uncaught parse exception instead of the exit-2 path. -/
theorem C5_counterexample :
    batchChecklistLoad (some none) ≠ batchChecklistLoad none ∧
    batchChecklistLoad (some none) = BatchLoad.uncaughtException := by
  decide

/-- C5 amended: the interactive reviewer's loader treats malformed
content identically to absence (both return null, nothing propagates),
but the batch auditor only guards absence (exit 2) and lets malformed
content throw an uncaught `JSON.parse` exception past the loader. -/
theorem C5_loader_amended (foldersPresent : Bool) :
    loadChecklistInteractive foldersPresent (some none) =
      loadChecklistInteractive foldersPresent none ∧
    loadChecklistInteractive foldersPresent (some none) = none ∧
    batchChecklistLoad none = BatchLoad.exitTwo ∧
    batchChecklistLoad (some none) = BatchLoad.uncaughtException := by
  cases foldersPresent <;> exact ⟨rfl, rfl, rfl, rfl⟩

/-! ## Fence-stripping lemmas -/

lemma fence_eq : fence = ['`', '`', '`'] := rfl

lemma fenceJsonTag_eq : fenceJsonTag = ['`', '`', '`', 'j', 's', 'o', 'n'] := rfl

lemma backtick_not_ws : ('`'.isWhitespace) = false := by decide

lemma newline_ws : ('\n'.isWhitespace) = true := by decide

lemma dropWhile_dropWhile {p : Char → Bool} (l : List Char) :
    (l.dropWhile p).dropWhile p = l.dropWhile p := by
  induction l with
  | nil => rfl
  | cons a t ih =>
    cases hp : p a
    · simp [List.dropWhile_cons, hp]
    · simp [List.dropWhile_cons, hp, ih]

lemma wsDrop_wsDrop (l : List Char) : wsDrop (wsDrop l) = wsDrop l :=
  dropWhile_dropWhile l

lemma wsDrop_cons_of_neg {a : Char} {l : List Char} (h : a.isWhitespace = false) :
    wsDrop (a :: l) = a :: l := by
  simp [wsDrop, List.dropWhile_cons, h]

lemma wsDrop_cons_of_pos {a : Char} {l : List Char} (h : a.isWhitespace = true) :
    wsDrop (a :: l) = wsDrop l := by
  simp [wsDrop, List.dropWhile_cons, h]

lemma wsDropEnd_nil : wsDropEnd [] = [] := rfl

/-- A list that loses nothing to a leading trim also keeps its head after
a trailing trim. -/
lemma wsDrop_wsDropEnd {l : List Char} (h : wsDrop l = l) :
    wsDrop (wsDropEnd l) = wsDropEnd l := by
  cases l with
  | nil => rfl
  | cons a t =>
    have ha : a.isWhitespace = false := by
      cases hp : a.isWhitespace
      · rfl
      · exfalso
        rw [wsDrop, List.dropWhile_cons, hp, if_pos rfl] at h
        have hle := (t.dropWhile_sublist Char.isWhitespace).length_le
        rw [h] at hle
        simp at hle
    unfold wsDropEnd
    rw [List.reverse_cons, List.dropWhile_append]
    split
    · rw [List.dropWhile_cons, ha]
      simp only [Bool.false_eq_true, if_false, List.reverse_cons, List.reverse_nil,
        List.nil_append]
      exact wsDrop_cons_of_neg ha
    · rename_i hne
      rw [List.reverse_append]
      simp only [List.reverse_cons, List.reverse_nil, List.nil_append,
        List.singleton_append]
      exact wsDrop_cons_of_neg ha

lemma wsDropEnd_wsDropEnd (l : List Char) : wsDropEnd (wsDropEnd l) = wsDropEnd l := by
  unfold wsDropEnd
  rw [List.reverse_reverse, dropWhile_dropWhile]

lemma jsTrim_idem (l : List Char) : jsTrim (jsTrim l) = jsTrim l := by
  unfold jsTrim
  rw [wsDrop_wsDropEnd (wsDrop_wsDrop l), wsDropEnd_wsDropEnd]

lemma prefixOfAppend (l r : List Char) : l.isPrefixOf (l ++ r) = true := by
  induction l with
  | nil => simp [List.isPrefixOf]
  | cons a t ih => simp [List.isPrefixOf, ih]

/-- `dropWhile` over an append whose left part starts with a
non-whitespace character leaves everything in place. -/
lemma wsDrop_bt_append (r : List Char) : wsDrop ('`' :: r) = '`' :: r :=
  wsDrop_cons_of_neg backtick_not_ws

lemma wsDropEnd_append_fence (x : List Char) :
    wsDropEnd (x ++ fence) = x ++ fence := by
  unfold wsDropEnd
  rw [List.reverse_append, fence_eq]
  simp only [List.reverse_cons, List.reverse_nil, List.nil_append, List.cons_append,
    List.append_assoc]
  rw [List.dropWhile_cons, backtick_not_ws]
  simp [List.reverse_append]

lemma jsTrim_wrapJson (t : List Char) : jsTrim (wrapJson t) = wrapJson t := by
  have hhead : wrapJson t =
      '`' :: ('`' :: '`' :: 'j' :: 's' :: 'o' :: 'n' :: '\n' :: (t ++ '\n' :: fence)) := by
    rw [wrapJson, fenceJsonTag_eq]
    simp
  have hshape : wrapJson t = (fenceJsonTag ++ '\n' :: (t ++ ['\n'])) ++ fence := by
    rw [wrapJson]
    simp [List.append_assoc]
  unfold jsTrim
  rw [hhead, wsDrop_bt_append, ← hhead, hshape, wsDropEnd_append_fence]

lemma jsTrim_wrapPlain (t : List Char) : jsTrim (wrapPlain t) = wrapPlain t := by
  have hhead : wrapPlain t =
      '`' :: ('`' :: '`' :: '\n' :: (t ++ '\n' :: fence)) := by
    rw [wrapPlain, fence_eq]
    simp
  have hshape : wrapPlain t = (fence ++ '\n' :: (t ++ ['\n'])) ++ fence := by
    rw [wrapPlain]
    simp [List.append_assoc]
  unfold jsTrim
  rw [hhead, wsDrop_bt_append, ← hhead, hshape, wsDropEnd_append_fence]

lemma stripClosing_fence : stripClosing fence = [] := rfl

/-- Removing the closing fence from `x ++ '\n' :: fence` trims exactly
the appended fence and the trailing whitespace of `x`. -/
lemma stripClosing_append (x : List Char) :
    stripClosing (x ++ '\n' :: fence) = wsDropEnd x := by
  have hrev : (x ++ '\n' :: fence).reverse = fence ++ '\n' :: x.reverse := by
    rw [List.reverse_append, fence_eq]
    simp
  unfold stripClosing
  rw [if_pos ?hsuf]
  case hsuf =>
    unfold List.isSuffixOf
    rw [hrev, show (fence ++ '\n' :: x.reverse) = fence.reverse ++ '\n' :: x.reverse by rfl]
    exact prefixOfAppend _ _
  rw [hrev]
  rw [List.drop_left' (by rw [fence_eq]; rfl)]
  rw [show List.dropWhile Char.isWhitespace ('\n' :: x.reverse) =
    List.dropWhile Char.isWhitespace x.reverse by
      rw [List.dropWhile_cons, newline_ws, if_pos rfl]]
  rfl

/-- Stripping the tagged wrap always returns the trimmed inner text. -/
lemma stripFence_wrapJson (t : List Char) : stripFence (wrapJson t) = jsTrim t := by
  unfold stripFence
  rw [jsTrim_wrapJson]
  unfold stripFenceTrimmed
  rw [if_pos (by rw [wrapJson]; exact prefixOfAppend _ _)]
  unfold stripOpening
  rw [wrapJson, List.drop_left' (by rw [fenceJsonTag_eq]; rfl)]
  rw [wsDrop_cons_of_pos newline_ws]
  unfold wsDrop
  rw [List.dropWhile_append]
  split
  · rename_i hemp
    have hnil : List.dropWhile Char.isWhitespace t = [] := by
      simpa using hemp
    rw [show List.dropWhile Char.isWhitespace ('\n' :: fence) = fence by
      rw [List.dropWhile_cons, newline_ws, if_pos rfl]; rfl]
    rw [stripClosing_fence]
    unfold jsTrim wsDrop
    rw [hnil]
    rfl
  · exact stripClosing_append _

/-- Stripping the plain wrap always returns the trimmed inner text. -/
lemma stripFence_wrapPlain (t : List Char) : stripFence (wrapPlain t) = jsTrim t := by
  unfold stripFence
  rw [jsTrim_wrapPlain]
  unfold stripFenceTrimmed
  rw [if_neg ?hnotjson]
  case hnotjson =>
    rw [wrapPlain, fence_eq, fenceJsonTag_eq]
    simp only [List.cons_append, List.nil_append]
    simp [List.isPrefixOf, show ('j' == '\n') = false from by decide]
  rw [if_pos (by rw [wrapPlain]; exact prefixOfAppend _ _)]
  unfold stripOpening
  rw [wrapPlain, List.drop_left' (by rw [fence_eq]; rfl)]
  rw [wsDrop_cons_of_pos newline_ws]
  unfold wsDrop
  rw [List.dropWhile_append]
  split
  · rename_i hemp
    have hnil : List.dropWhile Char.isWhitespace t = [] := by
      simpa using hemp
    rw [show List.dropWhile Char.isWhitespace ('\n' :: fence) = fence by
      rw [List.dropWhile_cons, newline_ws, if_pos rfl]; rfl]
    rw [stripClosing_fence]
    unfold jsTrim wsDrop
    rw [hnil]
    rfl
  · exact stripClosing_append _

/-- If the plain fence is not a prefix, neither is the tagged one. -/
lemma fenceJson_not_prefixOf {s : List Char} (h : fence.isPrefixOf s = false) :
    fenceJsonTag.isPrefixOf s = false := by
  cases hj : fenceJsonTag.isPrefixOf s
  · rfl
  · exfalso
    have hj' : fenceJsonTag <+: s := by
      rw [← List.isPrefixOf_iff_prefix]
      exact hj
    have hf : fence <+: s :=
      List.IsPrefix.trans (by rw [fenceJsonTag_eq, fence_eq]; exact ⟨['j', 's', 'o', 'n'], rfl⟩) hj'
    rw [← List.isPrefixOf_iff_prefix] at hf
    rw [hf] at h
    exact absurd h (by decide)

/-- Text whose trimmed form does not begin with a fence is only trimmed. -/
lemma stripFence_of_no_fence {t : List Char} (h : fence.isPrefixOf (jsTrim t) = false) :
    stripFence t = jsTrim t := by
  unfold stripFence stripFenceTrimmed
  rw [fenceJson_not_prefixOf h, h]
  simp

/-! ## Claim theorems (remote-judge path) -/

/-- C6 counterexample: stripping is not idempotent on every text — the
already-stripped output of stripping three backtick-fence lines is the
line made of three backticks, and stripping it again erases it. -/
theorem C6_counterexample :
    stripFence (stripFence ("```\n```\n```".toList)) ≠
      stripFence ("```\n```\n```".toList) := by
  decide

/-- C6 amended: for an inner text whose trimmed form does not itself
begin with a fence marker, the tagged wrap, the plain wrap and the bare
text all strip to the same string — the trimmed inner text — so any
parse of the three agrees; and stripping is idempotent there. -/
theorem C6_fence_amended (t : List Char)
    (h : fence.isPrefixOf (jsTrim t) = false) :
    stripFence (wrapJson t) = jsTrim t ∧
    stripFence (wrapPlain t) = jsTrim t ∧
    stripFence t = jsTrim t ∧
    stripFence (stripFence t) = stripFence t := by
  refine ⟨stripFence_wrapJson t, stripFence_wrapPlain t, stripFence_of_no_fence h, ?_⟩
  rw [stripFence_of_no_fence h]
  show stripFenceTrimmed (jsTrim (jsTrim t)) = jsTrim t
  rw [jsTrim_idem]
  exact stripFence_of_no_fence h

/-- C6 witness at the inner text `[1]`. -/
theorem C6_fence_amended_witness :
    fence.isPrefixOf (jsTrim "[1]".toList) = false ∧
    (stripFence (wrapJson "[1]".toList) = jsTrim "[1]".toList ∧
     stripFence (wrapPlain "[1]".toList) = jsTrim "[1]".toList ∧
     stripFence "[1]".toList = jsTrim "[1]".toList ∧
     stripFence (stripFence "[1]".toList) = stripFence "[1]".toList) :=
  ⟨by decide, C6_fence_amended "[1]".toList (by decide)⟩

/-- C7: whenever the parse oracle rejects the fence-stripped judge text,
`runLLMReview` throws the diagnostic error whose message carries the
raw, unstripped response text verbatim, and never returns a verdict
list. -/
theorem C7_parse_diagnostic {α : Type} (parse : List Char → Option α)
    (key content : List Char)
    (h : parse (stripFence content) = none) :
    runLLMReview (some key) (FetchResult.success content) parse =
      (LLMOutcome.error ("Failed to parse LLM JSON: ".toList ++ content), 1) ∧
    ∀ v : α,
      (runLLMReview (some key) (FetchResult.success content) parse).1 ≠
        LLMOutcome.ok v := by
  constructor
  · simp [runLLMReview, h]
  · intro v
    simp [runLLMReview, h]

/-- C7 witness: a parse oracle that rejects everything, on a concrete
response. -/
theorem C7_parse_diagnostic_witness :
    (fun _ : List Char => (none : Option Nat)) (stripFence "oops".toList) = none ∧
    (runLLMReview (some "k".toList) (FetchResult.success "oops".toList)
        (fun _ : List Char => (none : Option Nat)) =
      (LLMOutcome.error ("Failed to parse LLM JSON: ".toList ++ "oops".toList), 1) ∧
     ∀ v : Nat,
       (runLLMReview (some "k".toList) (FetchResult.success "oops".toList)
           (fun _ : List Char => (none : Option Nat))).1 ≠ LLMOutcome.ok v) :=
  ⟨rfl, C7_parse_diagnostic (fun _ => none) "k".toList "oops".toList rfl⟩

/-- C8: with the credential absent the pipeline stops with the error
before any network activity (request count 0); with it present exactly
one outbound request is issued whatever the network outcome. -/
theorem C8_credential_gate {α : Type} (net : FetchResult)
    (parse : List Char → Option α) (key : List Char) :
    runLLMReview none net parse =
      (LLMOutcome.error "OPENAI_API_KEY environment variable not set.".toList, 0) ∧
    (runLLMReview (some key) net parse).2 = 1 := by
  refine ⟨rfl, ?_⟩
  cases net with
  | httpError status body => rfl
  | success content =>
    cases hp : parse (stripFence content) <;> simp [runLLMReview, hp]

end ACR
